import Mathlib

/-!
Shallow embedding of the retrieval and indexing subsystem of the
ministry-document RAG repository (`src/vector_store.py`, class `VectorStore`),
together with theorems settling the specification claims about it.

Python-level effects are made explicit:
* a call that may raise is modelled as an `Except Unit` value describing its
  outcome (the exception payload is irrelevant to control flow, so `Unit`);
* the ChromaDB collection is modelled as the query/scan responses it returns;
* the wall clock (`int(time.time())`) is a `now : Nat` parameter;
* Python dicts of metadata are association lists in insertion order.
-/

namespace VectorStore

/-- A scalar metadata value as it appears in a Python metadata dict.
`other` stands for a value of any non-primitive type, carrying its `str()`
rendering. `none` is Python's `None`. -/
inductive MetaValue where
  | str (s : String)
  | int (n : Int)
  | num (q : ℚ)
  | bool (b : Bool)
  | none
  | other (rendering : String)
deriving DecidableEq

/-- A metadata dict: keys with values, in insertion order. -/
abbrev Metadata : Type := List (String × MetaValue)

/-- Key membership test, Python's `key in dict`. -/
def hasKey (m : Metadata) (k : String) : Bool :=
  (List.lookup k m).isSome

/-- One iteration of the loop inside `_clean_metadata`: `None` values are
skipped, primitive values kept, and any other value replaced by its `str()`
rendering. -/
def cleanValue : MetaValue → Option MetaValue
  | .none => Option.none
  | .str s => some (.str s)
  | .int n => some (.int n)
  | .num q => some (.num q)
  | .bool b => some (.bool b)
  | .other r => some (.str r)

/-- `VectorStore._clean_metadata`: rebuild the dict keeping only cleaned
values, then ensure a `ministry` key exists, defaulting it to the sentinel
`"Unknown Ministry"`. -/
def clean_metadata (metadata : Metadata) : Metadata :=
  let cleaned : Metadata := metadata.foldl (fun acc kv =>
    match cleanValue kv.2 with
    | some v => acc ++ [(kv.1, v)]
    | Option.none => acc) []
  if hasKey cleaned "ministry" then cleaned
  else cleaned ++ [("ministry", .str "Unknown Ministry")]

/-- A value of the `documents` list passed to `add_documents`: either not a
dict at all, or a dict with optional `text` and `id` entries and a metadata
dict (`doc.get("metadata", {})` makes a missing metadata entry equal to `[]`). -/
inductive PyDoc where
  | notDict
  | dict (text : Option String) (docId : Option String) (metadata : Metadata)
deriving DecidableEq

/-- Python truthiness of the `ministry: str = None` argument:
`None` and `""` are falsy. -/
def ministryTruthy : Option String → Bool
  | some s => s != ""
  | Option.none => false

/-- The three parallel lists accumulated for one `collection.add` call. -/
structure BatchLists where
  ids : List String
  texts : List String
  metadatas : List Metadata
deriving DecidableEq

/-- Python's `str.strip()`: drop leading and trailing whitespace. -/
def pyStrip (s : String) : String :=
  ⟨((s.data.dropWhile Char.isWhitespace).reverse.dropWhile Char.isWhitespace).reverse⟩

/-- One iteration of the per-document loop inside `add_documents`, for the
batch starting at index `i`: skip non-dicts and docs without `text`; strip the
text and skip if empty; clean the metadata; set `metadata["ministry"]` when
the ministry argument is truthy and the key is absent; take the given id or
synthesize `doc_{now}_{i}_{len(ids)}`. -/
def addDocStep (ministry : Option String) (now : Nat) (i : Nat)
    (acc : BatchLists) (doc : PyDoc) : BatchLists :=
  match doc with
  | .notDict => acc
  | .dict text? docId? md =>
    match text? with
    | Option.none => acc
    | some raw =>
      let text := pyStrip raw
      if text.data.isEmpty then acc
      else
        let metadata := clean_metadata md
        let metadata :=
          if ministryTruthy ministry && !hasKey metadata "ministry" then
            metadata ++ [("ministry", .str (ministry.getD ""))]
          else metadata
        let docId := docId?.getD
          ("doc_" ++ toString now ++ "_" ++ toString i ++ "_" ++ toString acc.ids.length)
        ⟨acc.ids ++ [docId], acc.texts ++ [text], acc.metadatas ++ [metadata]⟩

/-- The batch built from `documents[i : i + 100]`. -/
def build_batch (ministry : Option String) (now : Nat) (i : Nat)
    (batch : List PyDoc) : BatchLists :=
  batch.foldl (addDocStep ministry now i) ⟨[], [], []⟩

/-- Observable outcome of one `add_documents` call on its non-raising path:
the sequence of `collection.add` calls it makes, and the ministry passed to
`add_ministry_to_indexed`, when any. -/
structure AddResult where
  batches : List BatchLists
  markedMinistry : Option String
deriving DecidableEq

/-- `VectorStore.add_documents documents ministry`, with `now` the value of
`int(time.time())`: an empty list returns at once; otherwise documents are
processed in batches of 100, `collection.add` is called for every batch whose
`texts` list is non-empty, and afterwards — whatever `total_added` is — the
ministry is marked as indexed whenever the `ministry` argument is truthy. -/
def add_documents (documents : List PyDoc) (ministry : Option String)
    (now : Nat) : AddResult :=
  if documents.isEmpty then ⟨[], Option.none⟩
  else
    let batchStarts := (List.range ((documents.length + 99) / 100)).map (fun k => k * 100)
    let calls := batchStarts.filterMap (fun i =>
      let b := build_batch ministry now i ((documents.drop i).take 100)
      if b.texts.isEmpty then Option.none else some b)
    ⟨calls, if ministryTruthy ministry then ministry else Option.none⟩

/-- A ChromaDB query response, projected to the single query embedding the
code sends (the Python response nests each field one level deeper, as
`results["ids"][0]` etc.; `ids = []` covers both a falsy `results["ids"]`
and an empty `results["ids"][0]`). `distances` is `Option`al because the code
tests `"distances" in results`. Distances are modelled as rationals. -/
structure QueryResponse where
  ids : List String
  documents : List String
  metadatas : List Metadata
  distances : Option (List ℚ)
deriving DecidableEq

/-- One entry of the result-document list built by
`_process_search_results`. -/
structure SearchDoc where
  id : String
  text : String
  metadata : Metadata
  distance : ℚ
  relevance_score : ℚ
deriving DecidableEq

/-- The document dictionary built for candidate `i` of a response:
fields copied from the parallel lists, `distance` read from `distances` when
that key is present and `0.0` otherwise, and
`relevance_score = 1.0 - distance`. -/
def mkDoc (results : QueryResponse) (i : Nat) : SearchDoc :=
  let distance : ℚ :=
    match results.distances with
    | some ds => ds.getD i 0
    | Option.none => 0
  { id := results.ids.getD i ""
    text := results.documents.getD i ""
    metadata := results.metadatas.getD i []
    distance := distance
    relevance_score := 1 - distance }

/-- The candidate documents of a response in index-returned order: the loop
`for i in range(len(results["ids"][0]))` builds exactly these. -/
def entries (results : QueryResponse) : List SearchDoc :=
  (List.range results.ids.length).map (mkDoc results)

/-- The dedup-and-truncate loop of `_process_search_results`, iterating over
the remaining candidates with the current `seen_texts` set and accumulated
`documents` list: a candidate whose text was seen is skipped; otherwise it is
appended and the loop breaks as soon as `len(documents) >= n_results`. -/
def processLoop (n : Nat) : List SearchDoc → List String → List SearchDoc → List SearchDoc
  | [], _, docs => docs
  | e :: es, seen, docs =>
    if e.text ∈ seen then processLoop n es seen docs
    else
      let docs2 := docs ++ [e]
      if n ≤ docs2.length then docs2
      else processLoop n es (e.text :: seen) docs2

/-- The score order used by `documents.sort(key=..., reverse=True)`. -/
def scoreGE (a b : SearchDoc) : Prop :=
  b.relevance_score ≤ a.relevance_score

instance : DecidableRel scoreGE := fun a b =>
  inferInstanceAs (Decidable (b.relevance_score ≤ a.relevance_score))

instance : IsTotal SearchDoc scoreGE :=
  ⟨fun a b => le_total b.relevance_score a.relevance_score⟩

instance : IsTrans SearchDoc scoreGE :=
  ⟨fun _ _ _ h1 h2 => le_trans h2 h1⟩

/-- `documents.sort(key=lambda x: x["relevance_score"], reverse=True)`:
a stable sort, descending by `relevance_score`. Insertion sort is used as the
model because Python's sort is observationally exactly a stable sort. -/
def sortByScore (docs : List SearchDoc) : List SearchDoc :=
  docs.insertionSort scoreGE

/-- `VectorStore._process_search_results results n_results`: empty output for
an empty candidate list; otherwise run the dedup-and-truncate loop with empty
`seen_texts` / `documents`, then sort by relevance. -/
def process_search_results (results : QueryResponse) (n : Nat) : List SearchDoc :=
  if results.ids.isEmpty then []
  else sortByScore (processLoop n (entries results) [] [])

/-- The `where` clause built by `search_with_embedding`: the ministry equality
filter when `ministry` is truthy, otherwise no filter. -/
def whereClauseOf (ministry : String) : Option String :=
  if ministry = "" then Option.none else some ministry

/-- The collection's query endpoint as the code observes it: given the query
embedding, the optional ministry filter and `n_results`, it either raises or
returns a response. -/
abbrev QueryFun : Type :=
  List ℚ → Option String → Nat → Except Unit QueryResponse

/-- The fallback branch of `search_with_embedding`: one unfiltered query for
`n_results * 2` candidates, processed as usual; if it raises, the outer
handler returns `[]`. -/
def fallbackResult (query : QueryFun) (embedding : List ℚ) (n : Nat) :
    List SearchDoc :=
  match query embedding Option.none (n * 2) with
  | .ok results => process_search_results results n
  | .error _ => []

/-- `VectorStore.search_with_embedding embedding ministry n_results`:
query with the ministry filter asking for `n_results * 2` candidates; when
that call raises or returns no ids, fall back to one identical query without
the filter; a raising fallback is caught by the outer handler, which returns
`[]`. -/
def search_with_embedding (query : QueryFun) (embedding : List ℚ)
    (ministry : String) (n : Nat) : List SearchDoc :=
  match query embedding (whereClauseOf ministry) (n * 2) with
  | .ok results =>
    if results.ids.isEmpty then fallbackResult query embedding n
    else process_search_results results n
  | .error _ => fallbackResult query embedding n

/-- `VectorStore.create_embedding`: the embedding call's outcome is returned
unchanged — the `except` clause logs and re-raises. -/
def create_embedding (outcome : Except Unit (List ℚ)) : Except Unit (List ℚ) :=
  outcome

/-- `VectorStore.search_by_text query ministry n_results`, with
`embedOutcome` the outcome of embedding the query text: on success, search
with the embedding; an exception from `create_embedding` is caught by the
outer handler, which logs and returns `[]`. -/
def search_by_text (embedOutcome : Except Unit (List ℚ)) (query : QueryFun)
    (ministry : String) (n : Nat) : List SearchDoc :=
  match create_embedding embedOutcome with
  | .ok embedding => search_with_embedding query embedding ministry n
  | .error _ => []

/-- State of the durable registry file `indexed_ministries.json` as observed
by `_load_indexed_ministries`: absent; present but raising on open/parse; or
parsed, carrying `data["ministries"]` when that key exists. Registry members
are `MetaValue`s because the code inserts whatever value the metadata holds. -/
inductive RegistryFile where
  | missing
  | readError
  | parsed (ministries : Option (List MetaValue))
deriving DecidableEq

/-- One iteration of the scan loop: a falsy metadata contributes nothing;
otherwise the `ministry` value, when present, is added to the set. -/
def scanStep (acc : Finset MetaValue) (md : Option Metadata) : Finset MetaValue :=
  match md with
  | Option.none => acc
  | some m =>
    match List.lookup "ministry" m with
    | some v => insert v acc
    | Option.none => acc

/-- The distinct `ministry` values across a scanned list of stored records. -/
def scanMinistries (metadatas : List (Option Metadata)) : Finset MetaValue :=
  metadatas.foldl scanStep ∅

/-- Observable outcome of `_load_indexed_ministries`: the in-memory registry
afterwards, and whether `_save_indexed_ministries` was invoked. -/
structure LoadResult where
  indexedMinistries : Finset MetaValue
  savedToDisk : Bool
deriving DecidableEq

/-- `VectorStore._load_indexed_ministries`, starting from the empty registry
set up by `__init__`. `scan` is the outcome of `collection.get()`, giving the
`metadatas` list of every stored record (`.ok []` covers both a falsy result
dict and an empty/missing `metadatas` field). If the file exists and parses,
the registry is replaced by `set(data["ministries"])` when that key exists;
a read error is caught, leaving the registry empty. If the file is missing,
the collection is scanned: a raising or empty scan leaves the registry empty
and saves nothing, otherwise the distinct ministry values are collected and
saved. No path raises to the caller. -/
def load_indexed_ministries (file : RegistryFile)
    (scan : Except Unit (List (Option Metadata))) : LoadResult :=
  match file with
  | .parsed ministries =>
    match ministries with
    | some l => ⟨l.toFinset, false⟩
    | Option.none => ⟨∅, false⟩
  | .readError => ⟨∅, false⟩
  | .missing =>
    match scan with
    | .error _ => ⟨∅, false⟩
    | .ok metadatas =>
      if metadatas.isEmpty then ⟨∅, false⟩
      else ⟨scanMinistries metadatas, true⟩

/-- Reference formulation of the deduplication pass, used to state what the
processing loop computes: keep a candidate when its text is not in `seen`,
recording kept texts. -/
def dedupByText : List SearchDoc → List String → List SearchDoc
  | [], _ => []
  | d :: ds, seen =>
    if d.text ∈ seen then dedupByText ds seen
    else d :: dedupByText ds (d.text :: seen)

/-- "The filtered query raises or returns zero candidates": the observable
condition under which `search_with_embedding` takes its fallback branch. -/
def failedOrEmpty : Except Unit QueryResponse → Prop
  | .error _ => True
  | .ok results => results.ids = []

/-! ### Lemmas about the processing loop -/

/-- What the dedup-and-truncate loop computes: the kept-first deduplication of
the remaining candidates, cut to the capacity that is left. The capacity is
`max 1 (n - docs.length)` and not `n - docs.length` because the loop checks
the bound only after appending a document. -/
theorem processLoop_eq (n : Nat) :
    ∀ (es : List SearchDoc) (seen : List String) (docs : List SearchDoc),
      processLoop n es seen docs =
        docs ++ (dedupByText es seen).take (max 1 (n - docs.length)) := by
  intro es
  induction es with
  | nil => intro seen docs; simp [processLoop, dedupByText]
  | cons e es ih =>
    intro seen docs
    by_cases hseen : e.text ∈ seen
    · simp [processLoop, dedupByText, hseen, ih]
    · by_cases hfull : n ≤ (docs ++ [e]).length
      · have hfull' : n ≤ docs.length + 1 := by simpa using hfull
        have hcap : max 1 (n - docs.length) = 1 := by omega
        simp [processLoop, dedupByText, hseen, hfull', hcap]
      · have hcap : max 1 (n - docs.length) = (n - (docs ++ [e]).length) + 1 := by
          simp at hfull ⊢
          omega
        simp only [processLoop, dedupByText, if_neg hseen, if_neg hfull, ih, hcap,
          List.take_succ_cons]
        have hcap2 : max 1 (n - (docs ++ [e]).length) = n - (docs ++ [e]).length := by
          simp at hfull ⊢
          omega
        rw [hcap2]
        simp

/-- `_process_search_results` deduplicates in index order keeping first
occurrences, truncates to the first `max 1 n` survivors, and sorts those. -/
theorem process_search_results_eq (results : QueryResponse) (n : Nat) :
    process_search_results results n =
      if results.ids.isEmpty then []
      else sortByScore ((dedupByText (entries results) []).take (max 1 n)) := by
  unfold process_search_results
  rw [processLoop_eq]
  simp

/-- Every document kept by the deduplication pass occurs in the candidate
list, its text is fresh with respect to `seen`, and no earlier candidate
shares its text: the first occurrence wins. -/
theorem dedupByText_first :
    ∀ (xs : List SearchDoc) (seen : List String) (d : SearchDoc),
      d ∈ dedupByText xs seen →
        d.text ∉ seen ∧
          ∃ l₁ l₂, xs = l₁ ++ d :: l₂ ∧ ∀ e ∈ l₁, e.text ≠ d.text := by
  intro xs
  induction xs with
  | nil => intro seen d hd; simp [dedupByText] at hd
  | cons x xs ih =>
    intro seen d hd
    by_cases hx : x.text ∈ seen
    · rw [dedupByText, if_pos hx] at hd
      obtain ⟨hns, l₁, l₂, hsplit, hfresh⟩ := ih seen d hd
      refine ⟨hns, x :: l₁, l₂, by rw [hsplit]; rfl, ?_⟩
      intro e he
      rcases List.mem_cons.mp he with rfl | he'
      · intro habs; exact hns (habs ▸ hx)
      · exact hfresh e he'
    · rw [dedupByText, if_neg hx] at hd
      rcases List.mem_cons.mp hd with rfl | hd'
      · exact ⟨hx, [], xs, rfl, by simp⟩
      · obtain ⟨hns, l₁, l₂, hsplit, hfresh⟩ := ih (x.text :: seen) d hd'
        have hdx : d.text ≠ x.text := fun h => hns (by simp [h])
        have hnseen : d.text ∉ seen := fun h => hns (by simp [h])
        refine ⟨hnseen, x :: l₁, l₂, by rw [hsplit]; rfl, ?_⟩
        intro e he
        rcases List.mem_cons.mp he with rfl | he'
        · exact fun h => hdx h.symm
        · exact hfresh e he'

/-- The texts surviving deduplication are pairwise distinct. -/
theorem dedupByText_text_nodup :
    ∀ (xs : List SearchDoc) (seen : List String),
      ((dedupByText xs seen).map SearchDoc.text).Nodup := by
  intro xs
  induction xs with
  | nil => intro seen; simp [dedupByText]
  | cons x xs ih =>
    intro seen
    by_cases hx : x.text ∈ seen
    · rw [dedupByText, if_pos hx]; exact ih seen
    · rw [dedupByText, if_neg hx]
      refine List.nodup_cons.mpr ⟨?_, ih (x.text :: seen)⟩
      intro habs
      obtain ⟨d, hd, hdt⟩ := List.mem_map.mp habs
      exact (dedupByText_first xs (x.text :: seen) d hd).1 (by simp [hdt])

/-- The deduplication pass returns a sublist of its input. -/
theorem dedupByText_sublist :
    ∀ (xs : List SearchDoc) (seen : List String), List.Sublist (dedupByText xs seen) xs := by
  intro xs
  induction xs with
  | nil => intro seen; simp [dedupByText]
  | cons x xs ih =>
    intro seen
    by_cases hx : x.text ∈ seen
    · rw [dedupByText, if_pos hx]; exact (ih seen).cons x
    · rw [dedupByText, if_neg hx]; exact (ih (x.text :: seen)).cons₂ x

/-- The sort step is a permutation. -/
theorem sortByScore_perm (docs : List SearchDoc) : List.Perm (sortByScore docs) docs :=
  List.perm_insertionSort scoreGE docs

/-- The sort step sorts by non-increasing relevance score. -/
theorem sortByScore_sorted (docs : List SearchDoc) :
    List.Sorted scoreGE (sortByScore docs) :=
  List.sorted_insertionSort scoreGE docs

/-- Processed search results are sorted by non-increasing relevance score. -/
theorem process_search_results_sorted (results : QueryResponse) (n : Nat) :
    List.Sorted scoreGE (process_search_results results n) := by
  rw [process_search_results_eq]
  by_cases h : results.ids.isEmpty <;> simp [h, sortByScore_sorted]

/-- At most `max 1 n` search results are returned. -/
theorem process_search_results_length_le (results : QueryResponse) (n : Nat) :
    (process_search_results results n).length ≤ max 1 n := by
  rw [process_search_results_eq]
  by_cases h : results.ids.isEmpty
  · simp [h]
  · simp only [h, if_false, Bool.false_eq_true]
    calc (sortByScore ((dedupByText (entries results) []).take (max 1 n))).length
        = ((dedupByText (entries results) []).take (max 1 n)).length :=
          (sortByScore_perm _).length_eq
      _ ≤ max 1 n := List.length_take_le _ _

/-- A response with at least one candidate yields at least one result. -/
theorem process_search_results_ne_nil (results : QueryResponse) (n : Nat)
    (h : results.ids ≠ []) : process_search_results results n ≠ [] := by
  rw [process_search_results_eq]
  have hne : ¬ results.ids.isEmpty := by simpa [List.isEmpty_iff] using h
  simp only [hne, if_false, Bool.false_eq_true]
  have hlen0 : 0 < results.ids.length := List.length_pos.mpr h
  have hent : entries results ≠ [] := by
    simp only [entries, ne_eq, List.map_eq_nil_iff, List.range_eq_nil]
    omega
  obtain ⟨e, es, hcons⟩ := List.exists_cons_of_ne_nil hent
  have hdd : dedupByText (entries results) [] = e :: dedupByText es [e.text] := by
    rw [hcons, dedupByText]
    simp
  intro habs
  have hlen := congrArg List.length habs
  rw [List.Perm.length_eq (sortByScore_perm _), List.length_take, hdd] at hlen
  simp at hlen

/-! ### Lemmas about metadata and the registry scan -/

/-- Appending a binding for a key that is absent makes lookup find it. -/
theorem lookup_append_absent :
    ∀ (l : Metadata) (k : String) (v : MetaValue),
      List.lookup k l = Option.none →
        List.lookup k (l ++ [(k, v)]) = some v := by
  intro l k v
  induction l with
  | nil => intro _; simp
  | cons kv l ih =>
    intro h
    cases hkb : (k == kv.1) with
    | true =>
      rw [List.lookup_cons, hkb] at h
      simp at h
    | false =>
      rw [List.lookup_cons, hkb] at h
      rw [List.cons_append, List.lookup_cons, hkb]
      simp only [cond_false] at h ⊢
      exact ih h

/-- After `_clean_metadata`, the `ministry` key is always present — so the
later guard `"ministry" not in metadata` inside `add_documents` can never
hold. -/
theorem clean_metadata_hasKey (md : Metadata) :
    hasKey (clean_metadata md) "ministry" = true := by
  have main : ∀ c : Metadata,
      hasKey (if hasKey c "ministry" then c
        else c ++ [("ministry", MetaValue.str "Unknown Ministry")]) "ministry" = true := by
    intro c
    by_cases h : hasKey c "ministry" = true
    · simp [h]
    · have h' : List.lookup "ministry" c = Option.none := by
        unfold hasKey at h
        cases hl : List.lookup "ministry" c with
        | none => rfl
        | some w => rw [hl] at h; simp at h
      have hb : hasKey c "ministry" = false := by
        unfold hasKey
        rw [h']
        rfl
      rw [hb]
      simp only [Bool.false_eq_true, if_false]
      unfold hasKey
      rw [lookup_append_absent c _ _ h']
      rfl
  exact main _

/-- Membership in the fold underlying the registry scan. -/
theorem mem_foldl_scanStep :
    ∀ (mds : List (Option Metadata)) (acc : Finset MetaValue) (v : MetaValue),
      v ∈ mds.foldl scanStep acc ↔
        v ∈ acc ∨ ∃ m, some m ∈ mds ∧ List.lookup "ministry" m = some v := by
  intro mds
  induction mds with
  | nil => intro acc v; simp
  | cons md mds ih =>
    intro acc v
    rw [List.foldl_cons, ih]
    cases md with
    | none =>
      simp only [scanStep]
      constructor
      · rintro (hv | ⟨m, hm, hlm⟩)
        · exact Or.inl hv
        · exact Or.inr ⟨m, List.mem_cons_of_mem _ hm, hlm⟩
      · rintro (hv | ⟨m, hm, hlm⟩)
        · exact Or.inl hv
        · rcases List.mem_cons.mp hm with heq | hmem
          · exact absurd heq (by simp)
          · exact Or.inr ⟨m, hmem, hlm⟩
    | some m =>
      cases hl : List.lookup "ministry" m with
      | none =>
        simp only [scanStep, hl]
        constructor
        · rintro (hv | ⟨m', hm', hlm⟩)
          · exact Or.inl hv
          · exact Or.inr ⟨m', List.mem_cons_of_mem _ hm', hlm⟩
        · rintro (hv | ⟨m', hm', hlm⟩)
          · exact Or.inl hv
          · rcases List.mem_cons.mp hm' with heq | hmem
            · rw [Option.some_inj.mp heq] at hlm
              rw [hl] at hlm
              exact absurd hlm (by simp)
            · exact Or.inr ⟨m', hmem, hlm⟩
      | some w =>
        simp only [scanStep, hl, Finset.mem_insert]
        constructor
        · rintro ((rfl | hv) | ⟨m', hm', hlm⟩)
          · exact Or.inr ⟨m, List.mem_cons_self _ _, hl⟩
          · exact Or.inl hv
          · exact Or.inr ⟨m', List.mem_cons_of_mem _ hm', hlm⟩
        · rintro (hv | ⟨m', hm', hlm⟩)
          · exact Or.inl (Or.inr hv)
          · rcases List.mem_cons.mp hm' with heq | hmem
            · rw [Option.some_inj.mp heq] at hlm
              rw [hl] at hlm
              exact Or.inl (Or.inl (Option.some_inj.mp hlm).symm)
            · exact Or.inr ⟨m', hmem, hlm⟩

/-- Membership in the scanned registry: exactly the `ministry` values of the
stored records that carry one. -/
theorem mem_scanMinistries (mds : List (Option Metadata)) (v : MetaValue) :
    v ∈ scanMinistries mds ↔
      ∃ m, some m ∈ mds ∧ List.lookup "ministry" m = some v := by
  rw [scanMinistries, mem_foldl_scanStep]
  simp

/-! ### Concrete fixtures -/

/-- A collection whose filtered queries always raise and whose unfiltered
queries return one candidate. -/
def c1Query : QueryFun := fun _ w _ =>
  match w with
  | some _ => .error ()
  | Option.none => .ok ⟨["id1"], ["t1"], [[("ministry", .str "A")]], some [0]⟩

/-- A collection whose queries always raise. -/
def c4Query : QueryFun := fun _ _ _ => .error ()

/-- A collection whose queries always raise. -/
def c8Query : QueryFun := fun _ _ _ => .error ()

/-- A response whose two candidates arrive in ascending score order. -/
def c5Resp : QueryResponse := ⟨["id1", "id2"], ["a", "b"], [[], []], some [1, 0]⟩

/-- A scan over an index holding records of ministries `A` and `B`. -/
def c6Scan : List (Option Metadata) :=
  [some [("ministry", .str "A")], some [("ministry", .str "B")]]

/-- A response with two candidates of identical text and distinct ids. -/
def c7Resp : QueryResponse :=
  ⟨["a1", "a2", "a3"], ["dup", "uniq", "dup"], [[], [], []], some [0, 0, 0]⟩

/-- A response with no `distances` field. -/
def c10Resp : QueryResponse := ⟨["i1"], ["t"], [[]], Option.none⟩

/-! ### Claims -/

/-- Claim C1, counterexample: at `n_results = 0`, a failing filtered query
followed by a successful unfiltered fallback returns one result — more than
`n_results` — because the truncation bound is checked only after appending,
so "returns up to n_results deduplicated results" fails as stated for every
`n_results`. -/
theorem c1_n_results_zero_counterexample :
    ¬ ((search_with_embedding c1Query [] "X" 0).length ≤ 0) := by
  have h : search_with_embedding c1Query [] "X" 0 =
      [⟨"id1", "t1", [("ministry", .str "A")], 0, 1⟩] := by
    simp [search_with_embedding, fallbackResult, c1Query, whereClauseOf,
      process_search_results, entries, mkDoc, processLoop, sortByScore,
      List.range_succ]
  rw [h]
  simp

/-- Claim C1, amended: for `n_results ≥ 1`, whenever the filtered query
raises or returns zero candidates, search retries exactly once with the same
`2 × n_results` request and no filter, and returns that unfiltered query's
processed results — at most `n_results` deduplicated entries, non-empty
whenever the unfiltered query returned any candidate. -/
theorem c1_unfiltered_fallback (query : QueryFun) (embedding : List ℚ)
    (ministry : String) (n : Nat) (hn : 1 ≤ n)
    (hfail : failedOrEmpty (query embedding (whereClauseOf ministry) (n * 2))) :
    search_with_embedding query embedding ministry n =
        fallbackResult query embedding n ∧
      (search_with_embedding query embedding ministry n).length ≤ n ∧
      ∀ r, query embedding Option.none (n * 2) = .ok r → r.ids ≠ [] →
        search_with_embedding query embedding ministry n ≠ [] := by
  have hmain : search_with_embedding query embedding ministry n =
      fallbackResult query embedding n := by
    unfold search_with_embedding
    cases hq : query embedding (whereClauseOf ministry) (n * 2) with
    | error e => rfl
    | ok r =>
      rw [hq] at hfail
      have hids : r.ids = [] := hfail
      simp [hids]
  refine ⟨hmain, ?_, ?_⟩
  · rw [hmain]
    unfold fallbackResult
    cases hq : query embedding Option.none (n * 2) with
    | error e => simp
    | ok r =>
      have h1 := process_search_results_length_le r n
      have hmax : max 1 n = n := by omega
      rw [hmax] at h1
      exact h1
  · intro r hq hr
    rw [hmain]
    unfold fallbackResult
    rw [hq]
    exact process_search_results_ne_nil r n hr

/-- Claim C1, witness at a concrete failing filter and `n_results = 5`. -/
theorem c1_unfiltered_fallback_witness :
    search_with_embedding c1Query [] "X" 5 = fallbackResult c1Query [] 5 ∧
      (search_with_embedding c1Query [] "X" 5).length ≤ 5 ∧
      search_with_embedding c1Query [] "X" 5 ≠ [] := by
  have h := c1_unfiltered_fallback c1Query [] "X" 5 (by omega) trivial
  exact ⟨h.1, h.2.1,
    h.2.2 ⟨["id1"], ["t1"], [[("ministry", .str "A")]], some [0]⟩ rfl (by simp)⟩

/-- Claim C2, code bug: the caller-supplied ministry is never attached.
`_clean_metadata` always installs a `ministry` key (defaulting to the
sentinel), so the subsequent guard `"ministry" not in metadata` inside
`add_documents` is false for every document, and a document with empty
metadata indexed under `ministry="Finance"` is persisted with
`ministry = "Unknown Ministry"` instead of `"Finance"`. -/
theorem c2_ministry_never_attached :
    (∀ md : Metadata, hasKey (clean_metadata md) "ministry" = true) ∧
      add_documents [PyDoc.dict (some "hello") Option.none []] (some "Finance") 0 =
        ⟨[⟨["doc_0_0_0"], ["hello"], [[("ministry", .str "Unknown Ministry")]]⟩],
          some "Finance"⟩ :=
  ⟨clean_metadata_hasKey, by rfl⟩

/-- Claim C3, counterexample: a call whose single document is rejected (its
text strips to empty) performs no `collection.add` call — `batches = []` —
yet still marks the ministry `X` as indexed. -/
theorem c3_marked_without_persist_counterexample :
    add_documents [PyDoc.dict (some "   ") Option.none []] (some "X") 0 =
      ⟨[], some "X"⟩ := by rfl

/-- Claim C3, amended: the ministry is marked as indexed on every completed
`add_documents` call with a non-empty documents list and a truthy ministry
argument, whether or not any document survived the validity checks; only a
call with an empty documents list (or a falsy ministry) skips marking. -/
theorem c3_mark_indexed_unconditional (documents : List PyDoc)
    (ministry : Option String) (now : Nat) :
    (add_documents documents ministry now).markedMinistry =
      if documents.isEmpty then Option.none
      else if ministryTruthy ministry then ministry else Option.none := by
  by_cases h : documents.isEmpty <;> simp [add_documents, h]

/-- Claim C4, counterexample: when embedding the query fails,
`search_by_text` returns the empty list instead of propagating the failure. -/
theorem c4_embed_failure_returns_empty_counterexample :
    search_by_text (.error ()) c4Query "X" 5 = [] := by rfl

/-- Claim C4, amended: `create_embedding` does re-raise an embedding failure,
but `search_by_text` catches every exception and returns `[]`, so an
embedding failure reaches the caller as an empty result, not as an error. -/
theorem c4_embed_failure_swallowed :
    (∀ (query : QueryFun) (ministry : String) (n : Nat),
        search_by_text (.error ()) query ministry n = []) ∧
      create_embedding (.error ()) = (.error () : Except Unit (List ℚ)) :=
  ⟨fun _ _ _ => rfl, rfl⟩

/-- Claim C5, counterexample: with two candidates arriving in ascending score
order and `n_results = 1`, the returned result has score `0` although the
deduplicated candidate set contains an entry of score `1` — the loop
truncates to the first survivor before sorting, so the result is not the
highest-scoring candidate. -/
theorem c5_truncates_before_sort_counterexample :
    (process_search_results c5Resp 1).map SearchDoc.relevance_score = [0] ∧
      (dedupByText (entries c5Resp) []).map SearchDoc.relevance_score = [0, 1] := by
  constructor
  · simp [process_search_results, entries, mkDoc, processLoop, sortByScore,
      c5Resp, List.range_succ]
  · simp [dedupByText, entries, mkDoc, c5Resp, List.range_succ]

/-- Claim C5, amended: `_process_search_results` deduplicates candidates in
index-returned order, truncates during that pass to the first `max 1
n_results` survivors (the bound is checked only after an append, so
`n_results = 0` still yields one result), and only then sorts those survivors
descending by `relevance_score`. -/
theorem c5_dedup_truncate_then_sort (results : QueryResponse) (n : Nat) :
    process_search_results results n =
      if results.ids.isEmpty then []
      else sortByScore ((dedupByText (entries results) []).take (max 1 n)) :=
  process_search_results_eq results n

/-- Claim C6, counterexample: with the registry file missing and a successful
scan of an empty collection, `_load_indexed_ministries` returns early and
does not persist the reconstructed (empty) registry. -/
theorem c6_empty_scan_not_persisted_counterexample :
    load_indexed_ministries .missing (.ok []) = ⟨∅, false⟩ := by rfl

/-- Claim C6, amended: when the registry file is missing and the collection
scan succeeds on a non-empty metadata list, the registry becomes exactly the
distinct `ministry` values of the scanned records and is persisted; a raising
scan, an empty scan, or a file read error leaves the registry empty and
persists nothing; no case raises to the caller. -/
theorem c6_load_missing_file (mds : List (Option Metadata)) (hne : mds ≠ []) :
    (load_indexed_ministries .missing (.ok mds)).savedToDisk = true ∧
      (∀ v, v ∈ (load_indexed_ministries .missing (.ok mds)).indexedMinistries ↔
        ∃ m, some m ∈ mds ∧ List.lookup "ministry" m = some v) ∧
      load_indexed_ministries .missing (.error ()) = ⟨∅, false⟩ ∧
      (∀ scan, load_indexed_ministries .readError scan = ⟨∅, false⟩) := by
  have hb : mds.isEmpty = false := by
    cases mds with
    | nil => exact absurd rfl hne
    | cons m ms => rfl
  refine ⟨?_, ?_, rfl, fun scan => rfl⟩
  · simp [load_indexed_ministries, hb]
  · intro v
    simp only [load_indexed_ministries, hb, Bool.false_eq_true, if_false]
    exact mem_scanMinistries mds v

/-- Claim C6, witness: scanning an index holding ministries `A` and `B` with
the registry file missing marks the registry as saved and contains `A`. -/
theorem c6_load_missing_file_witness :
    (load_indexed_ministries .missing (.ok c6Scan)).savedToDisk = true ∧
      MetaValue.str "A" ∈
        (load_indexed_ministries .missing (.ok c6Scan)).indexedMinistries := by
  have h := c6_load_missing_file c6Scan (by simp [c6Scan])
  exact ⟨h.1, (h.2.1 (MetaValue.str "A")).mpr
    ⟨[("ministry", MetaValue.str "A")], by simp [c6Scan], rfl⟩⟩

/-- Claim C7: the processed results contain no two entries with equal text,
and every returned entry is the first candidate, in index-returned order,
bearing its text. -/
theorem c7_dedup_first_kept (results : QueryResponse) (n : Nat) :
    ((process_search_results results n).map SearchDoc.text).Nodup ∧
      ∀ d ∈ process_search_results results n,
        ∃ l₁ l₂, entries results = l₁ ++ d :: l₂ ∧ ∀ e ∈ l₁, e.text ≠ d.text := by
  rw [process_search_results_eq]
  by_cases h : results.ids.isEmpty
  · simp [h]
  · simp only [h, Bool.false_eq_true, if_false]
    constructor
    · have hperm := (sortByScore_perm
        ((dedupByText (entries results) []).take (max 1 n))).map SearchDoc.text
      refine hperm.symm.nodup ?_
      rw [List.map_take]
      exact List.Nodup.sublist (List.take_sublist _ _)
        (dedupByText_text_nodup _ _)
    · intro d hd
      have hd' : d ∈ (dedupByText (entries results) []).take (max 1 n) :=
        (List.Perm.mem_iff (sortByScore_perm _)).mp hd
      have hd'' : d ∈ dedupByText (entries results) [] :=
        (List.take_sublist _ _).subset hd'
      obtain ⟨_, l₁, l₂, hsplit, hfresh⟩ := dedupByText_first _ _ _ hd''
      exact ⟨l₁, l₂, hsplit, hfresh⟩

/-- Claim C7, witness: of two candidates with text `"dup"` and distinct ids,
only the first is returned, and the split certificate exhibits it as the
first occurrence. -/
theorem c7_dedup_first_kept_witness :
    ((process_search_results c7Resp 5).map SearchDoc.text).Nodup ∧
      (⟨"a1", "dup", [], 0, 1⟩ : SearchDoc) ∈ process_search_results c7Resp 5 ∧
      ∃ l₁ l₂, entries c7Resp = l₁ ++ (⟨"a1", "dup", [], 0, 1⟩ : SearchDoc) :: l₂ ∧
        ∀ e ∈ l₁, e.text ≠ (⟨"a1", "dup", [], 0, 1⟩ : SearchDoc).text := by
  have hmem : (⟨"a1", "dup", [], 0, 1⟩ : SearchDoc) ∈ process_search_results c7Resp 5 := by
    simp [process_search_results, entries, mkDoc, processLoop, sortByScore,
      scoreGE, c7Resp, List.range_succ]
  have h := c7_dedup_first_kept c7Resp 5
  obtain ⟨l₁, l₂, hsplit, hfresh⟩ := h.2 _ hmem
  exact ⟨h.1, hmem, l₁, l₂, hsplit, hfresh⟩

/-- Claim C8: when the filtered query fails or returns no candidates and the
unfiltered fallback also fails or returns no candidates, search returns the
empty sequence (the model is total: no branch raises to the caller). -/
theorem c8_both_fail_returns_empty (query : QueryFun) (embedding : List ℚ)
    (ministry : String) (n : Nat)
    (h1 : failedOrEmpty (query embedding (whereClauseOf ministry) (n * 2)))
    (h2 : failedOrEmpty (query embedding Option.none (n * 2))) :
    search_with_embedding query embedding ministry n = [] := by
  have hfb : fallbackResult query embedding n = [] := by
    unfold fallbackResult
    cases hq : query embedding Option.none (n * 2) with
    | error e => rfl
    | ok r =>
      rw [hq] at h2
      have hids : r.ids = [] := h2
      show process_search_results r n = []
      rw [process_search_results_eq]
      simp [hids]
  unfold search_with_embedding
  cases hq : query embedding (whereClauseOf ministry) (n * 2) with
  | error e => exact hfb
  | ok r =>
    rw [hq] at h1
    have hids : r.ids = [] := h1
    simp [hids, hfb]

/-- Claim C8, witness at a collection whose queries always raise. -/
theorem c8_both_fail_returns_empty_witness :
    search_with_embedding c8Query [] "X" 5 = [] :=
  c8_both_fail_returns_empty c8Query [] "X" 5 trivial trivial

/-- Claim C9: every result sequence returned by search has non-increasing
`relevance_score` — each entry's score is at least the next one's. -/
theorem c9_scores_nonincreasing (query : QueryFun) (embedding : List ℚ)
    (ministry : String) (n : Nat) :
    List.Chain' (fun a b => b.relevance_score ≤ a.relevance_score)
      (search_with_embedding query embedding ministry n) := by
  have hch : ∀ l : List SearchDoc, List.Sorted scoreGE l →
      List.Chain' (fun a b => b.relevance_score ≤ a.relevance_score) l :=
    fun l hl => List.Pairwise.chain' hl
  have hfb : List.Chain' (fun a b => b.relevance_score ≤ a.relevance_score)
      (fallbackResult query embedding n) := by
    unfold fallbackResult
    cases hq : query embedding Option.none (n * 2) with
    | error e => simp
    | ok r => exact hch _ (process_search_results_sorted r n)
  unfold search_with_embedding
  cases hq : query embedding (whereClauseOf ministry) (n * 2) with
  | error e => exact hfb
  | ok r =>
    by_cases hids : r.ids.isEmpty
    · simp only [hids, if_true]
      exact hfb
    · simp only [hids, Bool.false_eq_true, if_false]
      exact hch _ (process_search_results_sorted r n)

/-- Claim C10: when the response has no `distances` field, every returned
result carries `distance = 0` and `relevance_score = 1`. -/
theorem c10_no_distances_unit_scores (results : QueryResponse) (n : Nat)
    (hdist : results.distances = Option.none) :
    ∀ d ∈ process_search_results results n,
      d.distance = 0 ∧ d.relevance_score = 1 := by
  intro d hd
  rw [process_search_results_eq] at hd
  by_cases h : results.ids.isEmpty
  · simp [h] at hd
  · simp only [h, Bool.false_eq_true, if_false] at hd
    have hd' : d ∈ (dedupByText (entries results) []).take (max 1 n) :=
      (List.Perm.mem_iff (sortByScore_perm _)).mp hd
    have hd'' : d ∈ dedupByText (entries results) [] :=
      (List.take_sublist _ _).subset hd'
    have hd3 : d ∈ entries results := (dedupByText_sublist _ _).subset hd''
    obtain ⟨i, _, hmk⟩ := List.mem_map.mp hd3
    subst hmk
    simp [mkDoc, hdist]

/-- Claim C10, witness at a one-candidate response without distances. -/
theorem c10_no_distances_unit_scores_witness :
    (⟨"i1", "t", [], 0, 1⟩ : SearchDoc) ∈ process_search_results c10Resp 5 ∧
      (⟨"i1", "t", [], 0, 1⟩ : SearchDoc).distance = 0 ∧
      (⟨"i1", "t", [], 0, 1⟩ : SearchDoc).relevance_score = 1 := by
  have hmem : (⟨"i1", "t", [], 0, 1⟩ : SearchDoc) ∈ process_search_results c10Resp 5 := by
    simp [process_search_results, entries, mkDoc, processLoop, sortByScore,
      c10Resp, List.range_succ]
  exact ⟨hmem, c10_no_distances_unit_scores c10Resp 5 rfl _ hmem⟩


end VectorStore
